import Mathlib

set_option autoImplicit false

/-!
Verification of the nexus code-editor search/decoration core.

The embedding follows the Python sources:
  - src/code_editor/services/search_service.py       (namespace `V2`: the
    SearchModel-based service with find_plain_matches / find_regex_matches
    and the class constant MAX_ITERATIONS)
  - src/src/code_editor/services/search_service.py   (namespace `V1`: the
    service instantiated by the editor widget)
  - src/src/code_editor/models/search_model.py       (SearchMatch, SearchModel)
  - src/src/code_editor/services/decoration_service.py
  - src/src/code_editor/ui/editor_widget.py          (facade handlers)

A Qt document is modelled as its character content (`List Char`);
QTextDocument.characterCount() is the text length plus one (the trailing
paragraph separator), and a cursor position is a 0-based offset.  The plain
text find primitive is modelled concretely; the QRegExp engine is modelled
as an oracle (an arbitrary function from scan positions to results) since
its semantics live outside the repository.
-/

namespace Nexus

abbrev Doc := List Char

/-- QTextDocument.characterCount(): content length plus the final paragraph
separator. -/
def characterCount (doc : Doc) : Nat := doc.length + 1

/-- Character comparison used by the plain find primitive: exact when case
sensitive, case-folded otherwise. -/
def charEqCS (cs : Bool) (a b : Char) : Bool :=
  if cs then a == b else a.toLower == b.toLower

/-- Word constituent characters, for the FindWholeWords flag. -/
def isWordChar (c : Char) : Bool := c.isAlphanum || c == '_'

/-- Pointwise comparison of two equal-length character chunks. -/
def chunkEq (cs : Bool) : List Char → List Char → Bool
  | [], [] => true
  | a :: as, b :: bs => charEqCS cs a b && chunkEq cs as bs
  | _, _ => false

/-- The pattern occurs at offset `p` of the document (and fits inside it). -/
def matchAt (cs : Bool) (doc pat : Doc) (p : Nat) : Bool :=
  chunkEq cs pat ((doc.drop p).take pat.length)

def isWordCharAt (doc : Doc) (i : Nat) : Bool :=
  match doc.get? i with
  | some c => isWordChar c
  | none => false

/-- Whole-word boundary condition for a candidate span `[s, e)`. -/
def boundaryOk (ww : Bool) (doc : Doc) (s e : Nat) : Bool :=
  !ww || ((s == 0 || !isWordCharAt doc (s - 1)) &&
          (e == doc.length || !isWordCharAt doc e))

/-- Scan helper for the plain find primitive; `fuel` bounds the scan
structurally and `docFindPlain` supplies enough of it to reach the end of
the document, so the fuel never runs out. -/
def docFindPlainAux (cs ww : Bool) (doc pat : Doc) :
    Nat → Nat → Option (Nat × Nat)
  | 0, _ => none
  | fuel + 1, p =>
    if pat.isEmpty then none
    else if p + pat.length ≤ doc.length then
      if matchAt cs doc pat p && boundaryOk ww doc p (p + pat.length) then
        some (p, p + pat.length)
      else docFindPlainAux cs ww doc pat fuel (p + 1)
    else none

/-- Model of `QTextDocument.find` with a plain-text pattern: the first
occurrence at or after `p`, returned as (selectionStart, selectionEnd);
`none` models the null cursor. -/
def docFindPlain (cs ww : Bool) (doc pat : Doc) (p : Nat) :
    Option (Nat × Nat) :=
  docFindPlainAux cs ww doc pat (doc.length + 1 - p) p

/-- Embeds `SearchMatch` from src/src/code_editor/models/search_model.py: start and
end offsets plus the matched text (`endPos` embeds the dataclass field
`end`, a reserved word here).  The `cursor` field of the dataclass carries
the same span and is omitted. -/
structure SearchMatch where
  start : Nat
  endPos : Nat
  text : List Char
deriving Repr, DecidableEq

/-- Embeds `SearchMatch.from_cursor`: a found cursor selects `[s, e)` of the
document, with `selectedText` the spanned slice. -/
def SearchMatch.fromSpan (doc : Doc) (s e : Nat) : SearchMatch :=
  { start := s, endPos := e, text := (doc.take e).drop s }

/-- Safety limit to prevent infinite loops
(`SearchService.MAX_ITERATIONS` in src/code_editor/services/search_service.py,
and the local `max_iterations` of the other service version). -/
def MAX_ITERATIONS : Nat := 10000

namespace V2

/-- The `while` loop of `_find_plain_matches`
(src/code_editor/services/search_service.py).  `fuel` is the remaining
iteration budget `MAX_ITERATIONS - iteration_count`; `lastPos` is
`last_position` (initially `-1`); each found cursor sits at
`current_position = selectionEnd`, and the next find resumes after the
selection. -/
def plainLoop (cs ww : Bool) (doc pat : Doc) :
    Nat → Nat → Int → List SearchMatch → List SearchMatch
  | 0, _, _, acc => acc
  | fuel + 1, pos, lastPos, acc =>
    match docFindPlain cs ww doc pat pos with
    | none => acc
    | some (s, e) =>
      if (e : Int) = lastPos then acc
      else if characterCount doc ≤ e then acc
      else plainLoop cs ww doc pat fuel e (e : Int)
        (acc ++ [SearchMatch.fromSpan doc s e])

/-- Embeds `_find_plain_matches` of src/code_editor/services/search_service.py. -/
def find_plain_matches (cs ww : Bool) (doc pat : Doc) : List SearchMatch :=
  plainLoop cs ww doc pat MAX_ITERATIONS 0 (-1) []

end V2

/-- Abstract behavior of the QRegExp engine for one pattern and case
setting: `compile` models the `QRegExp(pattern)` construction (which may
raise), and `findFrom p` models `document.find(regex, cursor, flags)` with
the cursor at offset `p`: an exception (`.error`), a null cursor
(`.ok none`), or a found selection `(selectionStart, selectionEnd)` with
the cursor left at the selection end. -/
structure RegexEngine where
  compile : Except Unit Unit
  findFrom : Nat → Except Unit (Option (Nat × Nat))

namespace V2

/-- The `while` loop of `_find_regex_matches`
(src/code_editor/services/search_service.py).  One `gas` unit is spent per
executed loop pass; `gas` is a budget of the model only (the Python loop
has none), and `none` means the budget ran out with the loop still
running.  `fuel` is `MAX_ITERATIONS - iteration_count`; note the zero-width
branch `continue`s without touching `iteration_count`, hence without
spending `fuel`. -/
def regexLoop (eng : RegexEngine) (doc : Doc) :
    Nat → Nat → Nat → Int → List SearchMatch → Option (List SearchMatch)
  | 0, _, _, _, _ => none
  | gas + 1, fuel, pos, lastPos, acc =>
    match fuel with
    | 0 => some acc
    | fuel' + 1 =>
      match eng.findFrom pos with
      | .error _ => some acc      -- exception: caught by the surrounding try
      | .ok none => some acc      -- null cursor: break
      | .ok (some (s, e)) =>
        if (e : Int) = lastPos then
          -- zero-width match: cursor.movePosition(NextCharacter)
          let pos' := if e < doc.length then e + 1 else e
          if pos' = e then some acc   -- could not advance: break
          else regexLoop eng doc gas (fuel' + 1) pos' lastPos acc
        else if characterCount doc ≤ e then some acc
        else regexLoop eng doc gas fuel' e (e : Int)
          (acc ++ [SearchMatch.fromSpan doc s e])

/-- Step budget that `regexGas_sufficient` proves adequate for any engine
whose find primitive never answers before the queried offset. -/
def REGEX_GAS : Nat := 2 * MAX_ITERATIONS + 3

/-- Embeds `_find_regex_matches` of src/code_editor/services/search_service.py:
the whole body, from `QRegExp(pattern)` on, runs inside `try`, and an
exception turns into a plain return of `matches` as accumulated so far. -/
def find_regex_matches (eng : RegexEngine) (doc : Doc) :
    Option (List SearchMatch) :=
  match eng.compile with
  | .error _ => some []
  | .ok _ => regexLoop eng doc REGEX_GAS MAX_ITERATIONS 0 (-1) []

end V2

/-- Python list subscription `l[i]`: a negative index wraps once from the
end; any other out-of-range index raises IndexError (modelled as `none`). -/
def pyListGet {α : Type} (l : List α) (i : Int) : Option α :=
  if 0 ≤ i then l.get? i.toNat
  else if 0 ≤ (l.length : Int) + i then l.get? ((l.length : Int) + i).toNat
  else none

/-- Embeds `SearchModel` of src/src/code_editor/models/search_model.py. -/
structure SearchModel where
  pattern : Doc
  case_sensitive : Bool
  use_regex : Bool
  whole_word : Bool
  matchList : List SearchMatch
  current_index : Int
deriving Repr, DecidableEq

/-- The fresh state built by `SearchModel.__init__`. -/
def SearchModel.init : SearchModel :=
  { pattern := [], case_sensitive := false, use_regex := false,
    whole_word := false, matchList := [], current_index := -1 }

def SearchModel.match_count (m : SearchModel) : Nat := m.matchList.length

/-- The `current_match` property: guarded subscription of the match list. -/
def SearchModel.current_match (m : SearchModel) : Option SearchMatch :=
  if 0 ≤ m.current_index ∧ m.current_index < (m.matchList.length : Int) then
    pyListGet m.matchList m.current_index
  else none

def SearchModel.clear_matches (m : SearchModel) : SearchModel :=
  { m with matchList := [], current_index := -1 }

def SearchModel.set_matches (m : SearchModel) (ms : List SearchMatch) :
    SearchModel :=
  { m with matchList := ms, current_index := if ms.isEmpty then -1 else 0 }

/-- Method `next_match`: advance modulo the length, then read `current_match`. -/
def SearchModel.next_match (m : SearchModel) :
    SearchModel × Option SearchMatch :=
  if m.matchList.isEmpty then (m, none)
  else
    let m' := { m with
      current_index := (m.current_index + 1) % (m.matchList.length : Int) }
    (m', m'.current_match)

/-- Method `previous_match`: decrement modulo the length (Python `%` and the `%`
of `Int` here both return a result in `[0, length)`). -/
def SearchModel.previous_match (m : SearchModel) :
    SearchModel × Option SearchMatch :=
  if m.matchList.isEmpty then (m, none)
  else
    let m' := { m with
      current_index := (m.current_index - 1) % (m.matchList.length : Int) }
    (m', m'.current_match)

namespace V2

/-- Embeds `SearchService.search` of src/code_editor/services/search_service.py.
The Qt document and the engine compiled from this pattern are explicit
arguments; the result pairs the returned count with the updated model
(`none` only when the regex scan outruns the model's step budget). -/
def search (doc : Doc) (eng : RegexEngine) (model : SearchModel)
    (pattern : Doc) (cs rx ww : Bool) : Option (Nat × SearchModel) :=
  let m1 := { model with pattern := pattern, case_sensitive := cs,
                         use_regex := rx, whole_word := ww }
  let m2 := m1.clear_matches
  if pattern.isEmpty then some (0, m2)
  else
    let found? := if rx then find_regex_matches eng doc
                  else some (find_plain_matches cs ww doc pattern)
    match found? with
    | none => none
    | some ms =>
      let m3 := m2.set_matches ms
      some (m3.match_count, m3)

/-- Embeds `SearchService.clear` of src/code_editor/services/search_service.py. -/
def clear (model : SearchModel) : SearchModel :=
  { model.clear_matches with pattern := [] }

end V2

/-- Model states reachable from a fresh session through the public
search / next / previous / clear operations. -/
inductive Reachable : SearchModel → Prop
  | initStep : Reachable SearchModel.init
  | searchStep {m m' : SearchModel} {doc : Doc} {eng : RegexEngine}
      {pattern : Doc} {cs rx ww : Bool} {n : Nat} :
      Reachable m → V2.search doc eng m pattern cs rx ww = some (n, m') →
      Reachable m'
  | nextStep {m : SearchModel} : Reachable m → Reachable m.next_match.1
  | prevStep {m : SearchModel} : Reachable m → Reachable m.previous_match.1
  | clearStep {m : SearchModel} : Reachable m → Reachable (V2.clear m)

namespace V1

/-- State of the `SearchService` in
src/src/code_editor/services/search_service.py (the service the editor
widget instantiates). -/
structure SearchService where
  matchList : List SearchMatch
  current_index : Int
  last_pattern : Doc
  case_sensitive : Bool
  use_regex : Bool
  whole_word : Bool
deriving Repr, DecidableEq

def SearchService.init : SearchService :=
  { matchList := [], current_index := -1, last_pattern := [],
    case_sensitive := false, use_regex := false, whole_word := false }

/-- Plain-text `while` loop of `V1.SearchService.search`: the first find
happens before the loop head, and the head tests the null cursor before
the iteration budget (`current_pos < 0` can never hold for a `Nat`). -/
def plainLoop (cs ww : Bool) (doc pat : Doc) :
    Nat → Option (Nat × Nat) → Int → List SearchMatch → List SearchMatch
  | _, none, _, acc => acc
  | 0, some _, _, acc => acc
  | fuel + 1, some (s, e), lastPos, acc =>
    if (e : Int) = lastPos then acc
    else if characterCount doc ≤ e then acc
    else plainLoop cs ww doc pat fuel (docFindPlain cs ww doc pat e) (e : Int)
      (acc ++ [SearchMatch.fromSpan doc s e])

/-- Regex `while` loop of `V1.SearchService.search`: unlike V2 it spends an
iteration on the zero-width `continue` path (`iteration_count += 1` there),
and it has no try/except, so an engine exception propagates. -/
def regexLoop (eng : RegexEngine) (doc : Doc) :
    Nat → Option (Nat × Nat) → Int → List SearchMatch →
    Except Unit (List SearchMatch)
  | _, none, _, acc => .ok acc
  | 0, some _, _, acc => .ok acc
  | fuel + 1, some (s, e), lastPos, acc =>
    if (e : Int) = lastPos then
      let nextPos := e + 1
      if characterCount doc ≤ nextPos then .ok acc
      else do
        let r ← eng.findFrom nextPos
        regexLoop eng doc fuel r lastPos acc
    else if characterCount doc ≤ e then .ok acc
    else do
      let r ← eng.findFrom e
      regexLoop eng doc fuel r (e : Int) (acc ++ [SearchMatch.fromSpan doc s e])

/-- Embeds `SearchService.search` of src/src/code_editor/services/search_service.py.
Every stored field is overwritten before searching, so the previous state
is discarded wholesale. -/
def SearchService.search (_svc : SearchService) (doc : Doc)
    (eng : RegexEngine) (pattern : Doc) (cs rx ww : Bool) :
    Except Unit (Nat × SearchService) :=
  let svc1 : SearchService :=
    { matchList := [], current_index := -1, last_pattern := pattern,
      case_sensitive := cs, use_regex := rx, whole_word := ww }
  if pattern.isEmpty then .ok (0, svc1)
  else do
    let found ←
      if rx then do
        let _ ← eng.compile
        let r ← eng.findFrom 0
        regexLoop eng doc MAX_ITERATIONS r (-1) []
      else
        .ok (plainLoop cs ww doc pattern MAX_ITERATIONS
              (docFindPlain cs ww doc pattern 0) (-1) [])
    let svc2 : SearchService :=
      { svc1 with
        matchList := found
        current_index := if found.isEmpty then svc1.current_index else 0 }
    .ok (found.length, svc2)

def SearchService.get_matches (svc : SearchService) : List SearchMatch :=
  svc.matchList

/-- Method `get_current_match`: same guarded subscription as the model property. -/
def SearchService.get_current_match (svc : SearchService) :
    Option SearchMatch :=
  if 0 ≤ svc.current_index ∧ svc.current_index < (svc.matchList.length : Int) then
    pyListGet svc.matchList svc.current_index
  else none

def SearchService.get_current_index (svc : SearchService) : Int :=
  svc.current_index

def SearchService.next_match (svc : SearchService) :
    SearchService × Option SearchMatch :=
  if svc.matchList.isEmpty then (svc, none)
  else
    let svc' := { svc with
      current_index := (svc.current_index + 1) % (svc.matchList.length : Int) }
    (svc', pyListGet svc'.matchList svc'.current_index)

def SearchService.previous_match (svc : SearchService) :
    SearchService × Option SearchMatch :=
  if svc.matchList.isEmpty then (svc, none)
  else
    let svc' := { svc with
      current_index := (svc.current_index - 1) % (svc.matchList.length : Int) }
    (svc', pyListGet svc'.matchList svc'.current_index)

/-- Embeds `needs_research` of src/src/code_editor/services/search_service.py. -/
def SearchService.needs_research (svc : SearchService) (pattern : Doc)
    (cs rx ww : Bool) : Bool :=
  pattern != svc.last_pattern ||
  cs != svc.case_sensitive ||
  rx != svc.use_regex ||
  ww != svc.whole_word ||
  svc.matchList.length == 0

/-- Embeds `SearchService.clear`. -/
def SearchService.clear (svc : SearchService) : SearchService :=
  { svc with matchList := [], current_index := -1 }

end V1

/-! Decoration service, src/src/code_editor/services/decoration_service.py.
The service is generic in the cursor payload `κ` and the color type `χ`
(Python is duck-typed in both); the facade below instantiates cursors with
selection spans. -/

/-- The `DecorationLayer` enum; `value` gives the `auto()` numbering in
declaration order. -/
inductive DecorationLayer
  | CUSTOM
  | CURRENT_LINE
  | SEARCH_MATCHES
  | CURRENT_MATCH
deriving Repr, DecidableEq

def DecorationLayer.value : DecorationLayer → Nat
  | .CUSTOM => 1
  | .CURRENT_LINE => 2
  | .SEARCH_MATCHES => 3
  | .CURRENT_MATCH => 4

/-- Iteration order of the enum (`for layer in DecorationLayer`). -/
def allLayers : List DecorationLayer :=
  [.CUSTOM, .CURRENT_LINE, .SEARCH_MATCHES, .CURRENT_MATCH]

/-- A single decoration request; `to_extra_selection` maps it structurally
onto a QTextEdit.ExtraSelection, so the selection list is identified with
the decoration list. -/
structure Decoration (κ χ : Type) where
  cursor : κ
  bg_color : χ
  full_width : Bool
deriving Repr, DecidableEq

/-- Embeds `DecorationService`: one list of decorations per layer (the dict
`self._layers`, populated for every enum member). -/
structure DecorationService (κ χ : Type) where
  layers : DecorationLayer → List (Decoration κ χ)

def DecorationService.empty (κ χ : Type) : DecorationService κ χ :=
  ⟨fun _ => []⟩

def DecorationService.add_decoration {κ χ : Type}
    (svc : DecorationService κ χ) (layer : DecorationLayer) (cursor : κ)
    (bg : χ) (fw : Bool) : DecorationService κ χ :=
  ⟨fun l => if l = layer then svc.layers l ++ [⟨cursor, bg, fw⟩]
            else svc.layers l⟩

def DecorationService.clear_layer {κ χ : Type}
    (svc : DecorationService κ χ) (layer : DecorationLayer) :
    DecorationService κ χ :=
  ⟨fun l => if l = layer then [] else svc.layers l⟩

def DecorationService.clear_all {κ χ : Type}
    (_svc : DecorationService κ χ) : DecorationService κ χ :=
  ⟨fun _ => []⟩

/-- Embeds `sorted(DecorationLayer, key=lambda x: x.value)` in `apply`. -/
def sortedLayers : List DecorationLayer :=
  allLayers.insertionSort (fun a b => a.value ≤ b.value)

/-- The flat selection list `apply` builds: all layers' decorations,
concatenated in ascending `value` order. -/
def DecorationService.applySelections {κ χ : Type}
    (svc : DecorationService κ χ) : List (Decoration κ χ) :=
  (sortedLayers.map svc.layers).flatten

/-- The host calls `apply` issues: exactly one `setExtraSelections`, with
the flattened selection list. -/
def DecorationService.applyCalls {κ χ : Type}
    (svc : DecorationService κ χ) : List (List (Decoration κ χ)) :=
  [svc.applySelections]

/-- A mutating call on the decoration service, for quantifying over call
sequences. -/
inductive DecOp (κ χ : Type)
  | add (layer : DecorationLayer) (cursor : κ) (bg : χ) (fw : Bool)
  | clearLayer (layer : DecorationLayer)
  | clearAll

def runDecOp {κ χ : Type} (svc : DecorationService κ χ) :
    DecOp κ χ → DecorationService κ χ
  | .add layer cursor bg fw => svc.add_decoration layer cursor bg fw
  | .clearLayer layer => svc.clear_layer layer
  | .clearAll => svc.clear_all

def runDecOps {κ χ : Type} (ops : List (DecOp κ χ))
    (svc : DecorationService κ χ) : DecorationService κ χ :=
  ops.foldl runDecOp svc

/-! Facade handlers from src/src/code_editor/ui/editor_widget.py.  The
editor state they touch is the document, the V1 search service, the
decoration service (cursors are selection spans) and the popup's presence;
host and popup effects are recorded as an ordered event list. -/

/-- The two theme colors the search handlers read. -/
structure Theme (χ : Type) where
  search_match : χ
  current_match : χ

/-- The span a `SearchMatch`'s stored cursor selects. -/
def SearchMatch.cursorSpan (m : SearchMatch) : Nat × Nat := (m.start, m.endPos)

/-- Host and popup effects emitted by the handlers, in order. -/
inductive UiEvent (χ : Type)
  | setExtraSelections (sels : List (Decoration (Nat × Nat) χ))
  | setTextCursor (span : Nat × Nat)
  | centerCursor
  | updateMatchCount (current : Int) (total : Nat)
deriving Repr, DecidableEq

/-- Does the event hand a highlight set to the host widget? -/
def UiEvent.isSetSelections {χ : Type} : UiEvent χ → Bool
  | .setExtraSelections _ => true
  | _ => false

structure EditorState (χ : Type) where
  doc : Doc
  svc : V1.SearchService
  deco : DecorationService (Nat × Nat) χ
  hasPopup : Bool

/-- The single host call `DecorationService.apply` makes, as an event. -/
def applyEvent {χ : Type} (deco : DecorationService (Nat × Nat) χ) :
    UiEvent χ :=
  .setExtraSelections deco.applySelections

/-- Embeds `_restore_search_highlights` of editor_widget.py. -/
def restore_search_highlights {χ : Type} (st : EditorState χ)
    (theme : Theme χ) : EditorState χ × List (UiEvent χ) :=
  let deco1 := (st.deco.clear_layer .SEARCH_MATCHES).clear_layer .CURRENT_MATCH
  let ms := st.svc.get_matches
  if ms.isEmpty then
    ({ st with deco := deco1 }, [applyEvent deco1])
  else
    let deco2 := ms.foldl
      (fun d m => d.add_decoration .SEARCH_MATCHES m.cursorSpan
        theme.search_match false) deco1
    let popupEvents : List (UiEvent χ) :=
      if st.hasPopup then
        [.updateMatchCount (st.svc.get_current_index + 1) ms.length]
      else []
    match st.svc.get_current_match with
    | some cm =>
      let deco3 := deco2.add_decoration .CURRENT_MATCH cm.cursorSpan
        theme.current_match false
      ({ st with deco := deco3 },
        [UiEvent.setTextCursor cm.cursorSpan, .centerCursor,
          applyEvent deco3] ++ popupEvents)
    | none =>
      ({ st with deco := deco2 }, [applyEvent deco2] ++ popupEvents)

/-- Embeds `_on_search_requested` of editor_widget.py.  `eng` is the engine the
service would use for this pattern; the result is `.error` only if a V1
regex rescan lets an engine exception propagate. -/
def on_search_requested {χ : Type} (st : EditorState χ) (pattern : Doc)
    (cs rx ww : Bool) (eng : RegexEngine) (theme : Theme χ) :
    Except Unit (EditorState χ × List (UiEvent χ)) :=
  if pattern.isEmpty then
    let deco1 :=
      (st.deco.clear_layer .SEARCH_MATCHES).clear_layer .CURRENT_MATCH
    match st.svc.search st.doc eng [] cs rx ww with
    | .error e => .error e
    | .ok (_, svc') =>
      let popupEvents : List (UiEvent χ) :=
        if st.hasPopup then [.updateMatchCount 0 0] else []
      .ok ({ st with svc := svc', deco := deco1 },
        [applyEvent deco1] ++ popupEvents)
  else if !(st.svc.needs_research pattern cs rx ww) then
    .ok (restore_search_highlights st theme)
  else
    let deco1 :=
      (st.deco.clear_layer .SEARCH_MATCHES).clear_layer .CURRENT_MATCH
    match st.svc.search st.doc eng pattern cs rx ww with
    | .error e => .error e
    | .ok (count, svc') =>
      if 0 < count then
        let deco2 := svc'.get_matches.foldl
          (fun d m => d.add_decoration .SEARCH_MATCHES m.cursorSpan
            theme.search_match false) deco1
        let popupEvents : List (UiEvent χ) :=
          if st.hasPopup then [.updateMatchCount 1 count] else []
        match svc'.get_current_match with
        | some cm =>
          let deco3 := deco2.add_decoration .CURRENT_MATCH cm.cursorSpan
            theme.current_match false
          .ok ({ st with svc := svc', deco := deco3 },
            [UiEvent.setTextCursor cm.cursorSpan, .centerCursor,
              applyEvent deco3] ++ popupEvents)
        | none =>
          .ok ({ st with svc := svc', deco := deco2 },
            [applyEvent deco2] ++ popupEvents)
      else
        let popupEvents : List (UiEvent χ) :=
          if st.hasPopup then [.updateMatchCount 0 0] else []
        .ok ({ st with svc := svc', deco := deco1 },
          [applyEvent deco1] ++ popupEvents)

/-- Embeds `replaceRange` of the host document: splice `repl` over `[s, e)`. -/
def replaceRange (doc : Doc) (s e : Nat) (repl : Doc) : Doc :=
  doc.take s ++ repl ++ doc.drop e

/-- Descending-start order used to iterate matches during replace-all. -/
def startDescending (a b : SearchMatch) : Prop := b.start ≤ a.start

instance : DecidableRel startDescending := fun a b =>
  inferInstanceAs (Decidable (b.start ≤ a.start))

instance : IsTotal SearchMatch startDescending :=
  ⟨fun a b => Nat.le_total b.start a.start⟩

instance : IsTrans SearchMatch startDescending :=
  ⟨fun _ _ _ hab hbc => Nat.le_trans hbc hab⟩

/-- Modelled from the spec: `SearchService.replace_all` is invoked by the
widget's `_on_replace_all` handler, but no implementation exists under the
sources (the service class the widget instantiates has no such method); per
the spec it replaces every match of the current MatchList through the
document's replace primitive, iterating in reverse document order (highest
start offset first), returns the number of replacements performed, and
afterwards clears the match list and resets the current index to -1.  The
result also carries the iterated spans in visit order, so that the
iteration order is part of the observable behavior. -/
def V1.SearchService.replace_all (svc : V1.SearchService) (doc : Doc)
    (replacement : Doc) :
    Doc × Nat × V1.SearchService × List (Nat × Nat) :=
  let ordered := svc.matchList.insertionSort startDescending
  let newDoc := ordered.foldl
    (fun d m => replaceRange d m.start m.endPos replacement) doc
  (newDoc, svc.matchList.length,
    { svc with matchList := [], current_index := -1 },
    ordered.map SearchMatch.cursorSpan)

/-! Specification-side vocabulary used to state the claims. -/

/-- The spans at which a literal pattern occurs, counted non-overlapping
from the left (the usual greedy reading of "present k times
non-overlapping"): at each offset, either the pattern matches and scanning
resumes after it, or scanning moves one character right. -/
def greedySpansAux (cs : Bool) (doc pat : Doc) :
    Nat → Nat → List (Nat × Nat)
  | 0, _ => []
  | fuel + 1, p =>
    if p + pat.length ≤ doc.length ∧ pat ≠ [] then
      if matchAt cs doc pat p then
        (p, p + pat.length) :: greedySpansAux cs doc pat fuel (p + pat.length)
      else greedySpansAux cs doc pat fuel (p + 1)
    else []

def greedySpans (cs : Bool) (doc pat : Doc) (p : Nat) : List (Nat × Nat) :=
  greedySpansAux cs doc pat (doc.length + 1 - p) p

/-- The current-index invariant of a search session: -1 exactly on an empty
match list, in range otherwise. -/
def indexInvariant (m : SearchModel) : Prop :=
  (m.current_index = -1 ↔ m.matchList = []) ∧
  (m.matchList ≠ [] →
    0 ≤ m.current_index ∧ m.current_index < (m.matchList.length : Int))

/-- State transition of one `next_match` call. -/
def stepNext (m : SearchModel) : SearchModel := m.next_match.1

/-- State transition of one `previous_match` call. -/
def stepPrev (m : SearchModel) : SearchModel := m.previous_match.1

/-- An engine that never finds anything (used to instantiate searches whose
scenario never consults the regex engine). -/
def engNone : RegexEngine := ⟨.ok (), fun _ => .ok none⟩

/-- The observable behavior of QRegExp `".*"` scanning the document
`"abc"`: a greedy match spanning the rest of the document from every
offset, nothing beyond it. -/
def engStar : RegexEngine :=
  ⟨.ok (), fun p => if p ≤ 3 then .ok (some (p, 3)) else .ok none⟩

/-- A matcher that succeeds on the first find call and raises on every
later one. -/
def engRaisesAfterFirst : RegexEngine :=
  ⟨.ok (), fun p => if p = 0 then .ok (some (0, 1)) else .error ()⟩

/-- A compiler that raises (an invalid pattern). -/
def engBadCompile : RegexEngine := ⟨.error (), fun _ => .ok none⟩

/-- A matcher that raises on every find call. -/
def engRaisesFind : RegexEngine := ⟨.ok (), fun _ => .error ()⟩

/-! Theorems. -/

/-- C4: after any sequence of add / clear-layer / clear-all calls followed
by exactly one `apply()`, the host widget receives exactly one
setExtraSelections call, whose payload is the concatenation of the four
layers' current contents in ascending priority order CUSTOM, CURRENT_LINE,
SEARCH_MATCHES, CURRENT_MATCH (each layer in insertion order, since
`add_decoration` appends). -/
theorem apply_emits_layers_in_priority_order {κ χ : Type}
    (svc : DecorationService κ χ) (ops : List (DecOp κ χ)) :
    (runDecOps ops svc).applyCalls =
      [(runDecOps ops svc).layers .CUSTOM ++
       (runDecOps ops svc).layers .CURRENT_LINE ++
       (runDecOps ops svc).layers .SEARCH_MATCHES ++
       (runDecOps ops svc).layers .CURRENT_MATCH] := by
  have hs : sortedLayers = allLayers := by decide
  simp [DecorationService.applyCalls, DecorationService.applySelections, hs,
    allLayers, List.append_assoc]

/-- C10: retrieving the current match is total for every value of the
current index (including -1 and out-of-range values set through the public
setter): in range it returns the stored match at that index — the guarded
subscription never faults — and out of range it returns none; stated for
`SearchModel.current_match` and for `V1.SearchService.get_current_match`. -/
theorem current_match_total (m : SearchModel) (svc : V1.SearchService) :
    ((0 ≤ m.current_index ∧ m.current_index < (m.matchList.length : Int)) →
      m.current_match = m.matchList.get? m.current_index.toNat ∧
      m.matchList.get? m.current_index.toNat ≠ none) ∧
    (¬(0 ≤ m.current_index ∧ m.current_index < (m.matchList.length : Int)) →
      m.current_match = none) ∧
    ((0 ≤ svc.current_index ∧
        svc.current_index < (svc.matchList.length : Int)) →
      svc.get_current_match = svc.matchList.get? svc.current_index.toNat ∧
      svc.matchList.get? svc.current_index.toNat ≠ none) ∧
    (¬(0 ≤ svc.current_index ∧
        svc.current_index < (svc.matchList.length : Int)) →
      svc.get_current_match = none) := by
  refine ⟨fun h => ⟨?_, ?_⟩, fun h => ?_, fun h => ⟨?_, ?_⟩, fun h => ?_⟩
  · simp [SearchModel.current_match, h, pyListGet, h.1]
  · simp only [ne_eq, List.get?_eq_none]
    omega
  · simp [SearchModel.current_match, h]
  · simp [V1.SearchService.get_current_match, h, pyListGet, h.1]
  · simp only [ne_eq, List.get?_eq_none]
    omega
  · simp [V1.SearchService.get_current_match, h]

theorem current_match_total_witness :
    ({ pattern := [], case_sensitive := false, use_regex := false,
       whole_word := false,
       matchList := [⟨0, 1, ['a']⟩, ⟨2, 3, ['b']⟩],
       current_index := 1 } : SearchModel).current_match =
      some ⟨2, 3, ['b']⟩ ∧
    ({ matchList := [⟨0, 1, ['a']⟩], current_index := 5, last_pattern := [],
       case_sensitive := false, use_regex := false,
       whole_word := false } : V1.SearchService).get_current_match =
      none := by
  constructor
  · have h := (current_match_total
      { pattern := [], case_sensitive := false, use_regex := false,
        whole_word := false,
        matchList := [⟨0, 1, ['a']⟩, ⟨2, 3, ['b']⟩], current_index := 1 }
      V1.SearchService.init).1 (by decide)
    rw [h.1]
    rfl
  · exact (current_match_total SearchModel.init
      { matchList := [⟨0, 1, ['a']⟩], current_index := 5, last_pattern := [],
        case_sensitive := false, use_regex := false,
        whole_word := false }).2.2.2 (by decide)

/-- Shifting by a constant commutes with a trailing reduction modulo `n`. -/
theorem emod_shift (a n c : Int) : (a % n + c) % n = (a + c) % n := by
  have h : a % n + c = a + c + n * (-(a / n)) := by
    rw [Int.emod_def]; ring
  rw [h, Int.add_mul_emod_self_left]

/-- Iterating `next_match` from a valid index: the state keeps its match
list and walks the index forward modulo the length. -/
theorem stepNext_iterate (m : SearchModel) (hn : 0 < m.matchList.length)
    (h0 : 0 ≤ m.current_index)
    (h1 : m.current_index < (m.matchList.length : Int)) :
    ∀ j : Nat, stepNext^[j] m =
      { m with current_index :=
          (m.current_index + j) % (m.matchList.length : Int) } := by
  intro j
  induction j with
  | zero =>
    simp only [Function.iterate_zero, id_eq, Nat.cast_zero, add_zero]
    rw [Int.emod_eq_of_lt h0 h1]
  | succ j ih =>
    rw [Function.iterate_succ_apply', ih]
    have hne : m.matchList.isEmpty = false := by
      simp [List.isEmpty_iff]
      exact List.ne_nil_of_length_pos hn
    simp only [stepNext, SearchModel.next_match, hne, Bool.false_eq_true,
      if_false]
    simp only [SearchModel.mk.injEq, and_true, true_and]
    rw [emod_shift]
    push_cast
    ring_nf

/-- Iterating `previous_match` from a valid index: the index walks backward
modulo the length. -/
theorem stepPrev_iterate (m : SearchModel) (hn : 0 < m.matchList.length)
    (h0 : 0 ≤ m.current_index)
    (h1 : m.current_index < (m.matchList.length : Int)) :
    ∀ j : Nat, stepPrev^[j] m =
      { m with current_index :=
          (m.current_index - j) % (m.matchList.length : Int) } := by
  intro j
  induction j with
  | zero =>
    simp only [Function.iterate_zero, id_eq, Nat.cast_zero, sub_zero]
    rw [Int.emod_eq_of_lt h0 h1]
  | succ j ih =>
    rw [Function.iterate_succ_apply', ih]
    have hne : m.matchList.isEmpty = false := by
      simp [List.isEmpty_iff]
      exact List.ne_nil_of_length_pos hn
    simp only [stepPrev, SearchModel.previous_match, hne, Bool.false_eq_true,
      if_false]
    simp only [SearchModel.mk.injEq, and_true, true_and]
    rw [sub_eq_add_neg, emod_shift]
    push_cast
    ring_nf

/-- The value `next_match` returns is the current match of the state it
moves to (also when the list is empty and it returns none). -/
theorem next_match_snd (m : SearchModel) :
    m.next_match.2 = m.next_match.1.current_match := by
  unfold SearchModel.next_match
  by_cases h : m.matchList.isEmpty
  · rw [if_pos h]
    have hl : m.matchList = [] := List.isEmpty_iff.mp h
    simp only [SearchModel.current_match, hl, List.length_nil, Nat.cast_zero]
    rw [if_neg (by omega)]
  · rw [if_neg h]

/-- The value `previous_match` returns is the current match of the state it
moves to. -/
theorem previous_match_snd (m : SearchModel) :
    m.previous_match.2 = m.previous_match.1.current_match := by
  unfold SearchModel.previous_match
  by_cases h : m.matchList.isEmpty
  · rw [if_pos h]
    have hl : m.matchList = [] := List.isEmpty_iff.mp h
    simp only [SearchModel.current_match, hl, List.length_nil, Nat.cast_zero]
    rw [if_neg (by omega)]
  · rw [if_neg h]

/-- C7: for a match list of length n > 0 and any current index in the valid
range [0, n-1] a MatchList admits, n calls to `next` return to the same
state — hence the same current index — and the n-th call returns the same
match that was current before the calls; symmetrically for `previous`. -/
theorem navigation_wraps (m : SearchModel) (hn : 0 < m.matchList.length)
    (h0 : 0 ≤ m.current_index)
    (h1 : m.current_index < (m.matchList.length : Int)) :
    (stepNext^[m.matchList.length] m = m ∧
      (stepNext^[m.matchList.length - 1] m).next_match.2 =
        m.current_match) ∧
    (stepPrev^[m.matchList.length] m = m ∧
      (stepPrev^[m.matchList.length - 1] m).previous_match.2 =
        m.current_match) := by
  have hfullN : stepNext^[m.matchList.length] m = m := by
    rw [stepNext_iterate m hn h0 h1]
    have hmod : (m.current_index + (m.matchList.length : Int)) %
        (m.matchList.length : Int) = m.current_index := by
      rw [show m.current_index + (m.matchList.length : Int) =
            m.current_index + (m.matchList.length : Int) * 1 by ring,
          Int.add_mul_emod_self_left, Int.emod_eq_of_lt h0 h1]
    rw [hmod]
  have hfullP : stepPrev^[m.matchList.length] m = m := by
    rw [stepPrev_iterate m hn h0 h1]
    have hmod : (m.current_index - (m.matchList.length : Int)) %
        (m.matchList.length : Int) = m.current_index := by
      rw [show m.current_index - (m.matchList.length : Int) =
            m.current_index + (m.matchList.length : Int) * (-1) by ring,
          Int.add_mul_emod_self_left, Int.emod_eq_of_lt h0 h1]
    rw [hmod]
  refine ⟨⟨hfullN, ?_⟩, ⟨hfullP, ?_⟩⟩
  · rw [next_match_snd]
    have hstep : (stepNext^[m.matchList.length - 1] m).next_match.1 =
        stepNext^[m.matchList.length] m := by
      show stepNext (stepNext^[m.matchList.length - 1] m) =
        stepNext^[m.matchList.length] m
      rw [← Function.iterate_succ_apply' stepNext]
      have harg : m.matchList.length - 1 + 1 = m.matchList.length := by omega
      simp only [Nat.succ_eq_add_one, harg]
    rw [hstep, hfullN]
  · rw [previous_match_snd]
    have hstep : (stepPrev^[m.matchList.length - 1] m).previous_match.1 =
        stepPrev^[m.matchList.length] m := by
      show stepPrev (stepPrev^[m.matchList.length - 1] m) =
        stepPrev^[m.matchList.length] m
      rw [← Function.iterate_succ_apply' stepPrev]
      have harg : m.matchList.length - 1 + 1 = m.matchList.length := by omega
      simp only [Nat.succ_eq_add_one, harg]
    rw [hstep, hfullP]

theorem navigation_wraps_witness :
    (stepNext^[2]
        ({ pattern := ['a'], case_sensitive := false, use_regex := false,
           whole_word := false,
           matchList := [⟨0, 1, ['a']⟩, ⟨2, 3, ['a']⟩],
           current_index := 0 } : SearchModel) =
      { pattern := ['a'], case_sensitive := false, use_regex := false,
        whole_word := false,
        matchList := [⟨0, 1, ['a']⟩, ⟨2, 3, ['a']⟩],
        current_index := 0 }) ∧
    (stepNext^[1]
        ({ pattern := ['a'], case_sensitive := false, use_regex := false,
           whole_word := false,
           matchList := [⟨0, 1, ['a']⟩, ⟨2, 3, ['a']⟩],
           current_index := 0 } : SearchModel)).next_match.2 =
      some ⟨0, 1, ['a']⟩ := by
  have h := navigation_wraps
    { pattern := ['a'], case_sensitive := false, use_regex := false,
      whole_word := false,
      matchList := [⟨0, 1, ['a']⟩, ⟨2, 3, ['a']⟩], current_index := 0 }
    (by decide) (by decide) (by decide)
  exact ⟨h.1.1, h.1.2⟩

/-- Every successful `search` call returns the new match-list length and
leaves the current index at 0 for a non-empty result, -1 otherwise. -/
theorem search_shape (doc : Doc) (eng : RegexEngine) (model : SearchModel)
    (pattern : Doc) (cs rx ww : Bool) (n : Nat) (m' : SearchModel)
    (h : V2.search doc eng model pattern cs rx ww = some (n, m')) :
    n = m'.matchList.length ∧
    m'.current_index = (if m'.matchList.isEmpty then -1 else 0) := by
  by_cases hp : pattern.isEmpty
  · simp only [V2.search, hp, if_true, Option.some.injEq, Prod.mk.injEq] at h
    obtain ⟨hn, hm⟩ := h
    subst hn
    subst hm
    simp [SearchModel.clear_matches]
  · simp only [V2.search, hp, Bool.false_eq_true, if_false] at h
    rcases hfound : (if rx then V2.find_regex_matches eng doc
        else some (V2.find_plain_matches cs ww doc pattern)) with _ | ms
    · rw [hfound] at h
      simp at h
    · rw [hfound] at h
      simp only [Option.some.injEq, Prod.mk.injEq] at h
      obtain ⟨hn, hm⟩ := h
      subst hn
      subst hm
      simp [SearchModel.set_matches, SearchModel.match_count]

/-- A state whose index was just reduced modulo a non-empty list length
satisfies the index invariant. -/
theorem indexInvariant_emod (m : SearchModel) (x : Int)
    (hne : m.matchList ≠ []) :
    indexInvariant { m with
      current_index := x % (m.matchList.length : Int) } := by
  have hlen : 0 < m.matchList.length := List.length_pos.mpr hne
  have hlen' : (0 : Int) < (m.matchList.length : Int) := by
    exact_mod_cast hlen
  have hn0 : 0 ≤ x % (m.matchList.length : Int) :=
    Int.emod_nonneg _ (by omega)
  have hn1 : x % (m.matchList.length : Int) < (m.matchList.length : Int) :=
    Int.emod_lt_of_pos _ hlen'
  unfold indexInvariant
  refine ⟨⟨fun hc => ?_, fun hc => ?_⟩, fun _ => ⟨hn0, hn1⟩⟩
  · exfalso
    simp only at hc
    omega
  · exact absurd hc hne

/-- A state whose current index was just reset to 0 on a non-empty list and
-1 on an empty one satisfies the index invariant. -/
theorem indexInvariant_of_reset (m' : SearchModel)
    (hci : m'.current_index = (if m'.matchList.isEmpty then -1 else 0)) :
    indexInvariant m' := by
  unfold indexInvariant
  rw [hci]
  by_cases he : m'.matchList.isEmpty
  · have hl := List.isEmpty_iff.mp he
    simp [he, hl]
  · have hne : m'.matchList ≠ [] := fun hh => by simp [hh] at he
    have hlen : 0 < m'.matchList.length := List.length_pos.mpr hne
    simp only [he, Bool.false_eq_true, if_false]
    refine ⟨⟨fun hc => by omega, fun hc => absurd hc hne⟩,
      fun _ => ⟨le_refl 0, by exact_mod_cast hlen⟩⟩

theorem indexInvariant_next (m : SearchModel) (h : indexInvariant m) :
    indexInvariant m.next_match.1 := by
  unfold SearchModel.next_match
  by_cases he : m.matchList.isEmpty
  · simpa [he] using h
  · have hne : m.matchList ≠ [] := fun hh => by simp [hh] at he
    simpa [he] using indexInvariant_emod m (m.current_index + 1) hne

theorem indexInvariant_prev (m : SearchModel) (h : indexInvariant m) :
    indexInvariant m.previous_match.1 := by
  unfold SearchModel.previous_match
  by_cases he : m.matchList.isEmpty
  · simpa [he] using h
  · have hne : m.matchList ≠ [] := fun hh => by simp [hh] at he
    simpa [he] using indexInvariant_emod m (m.current_index - 1) hne

/-- C6: in every state reachable from a fresh session through search, next,
previous and clear, the current index is -1 exactly when the match list is
empty and lies in [0, length-1] otherwise; moreover every search call sets
the index to 0 when it finds at least one match and to -1 otherwise. -/
theorem search_session_invariant :
    (∀ m : SearchModel, Reachable m → indexInvariant m) ∧
    (∀ (doc : Doc) (eng : RegexEngine) (model : SearchModel)
        (pattern : Doc) (cs rx ww : Bool) (n : Nat) (m' : SearchModel),
      V2.search doc eng model pattern cs rx ww = some (n, m') →
      (0 < n → m'.current_index = 0) ∧ (n = 0 → m'.current_index = -1)) := by
  constructor
  · intro m hr
    induction hr with
    | initStep =>
      refine ⟨by simp [SearchModel.init], fun hc => absurd rfl hc⟩
    | searchStep hr hs ih =>
      exact indexInvariant_of_reset _ (search_shape _ _ _ _ _ _ _ _ _ hs).2
    | nextStep hr ih => exact indexInvariant_next _ ih
    | prevStep hr ih => exact indexInvariant_prev _ ih
    | clearStep hr ih =>
      refine ⟨by simp [V2.clear, SearchModel.clear_matches],
        fun hc => ?_⟩
      simp [V2.clear, SearchModel.clear_matches] at hc
  · intro doc eng model pattern cs rx ww n m' h
    obtain ⟨hn, hci⟩ := search_shape _ _ _ _ _ _ _ _ _ h
    subst hn
    constructor
    · intro hpos
      rw [hci, if_neg]
      simp only [List.isEmpty_iff]
      intro hc
      rw [hc] at hpos
      simp at hpos
    · intro hzero
      rw [hci, if_pos]
      simp only [List.isEmpty_iff]
      exact List.length_eq_zero.mp hzero

theorem search_session_invariant_witness :
    indexInvariant SearchModel.init ∧
    ({ pattern := ['a'], case_sensitive := true, use_regex := false,
       whole_word := false,
       matchList := [⟨0, 1, ['a']⟩], current_index := 0 }
        : SearchModel).current_index = 0 := by
  constructor
  · exact search_session_invariant.1 SearchModel.init Reachable.initStep
  · exact (search_session_invariant.2 ['a'] engNone SearchModel.init ['a']
      true false false 1
      { pattern := ['a'], case_sensitive := true, use_regex := false,
        whole_word := false,
        matchList := [⟨0, 1, ['a']⟩], current_index := 0 }
      (by decide)).1 (by decide)

/-- C9: on a search request with the empty pattern the facade records the
empty-pattern criteria (pattern and flags) as last-used, clears the
SEARCH_MATCHES and CURRENT_MATCH layers, hands the host exactly one
highlight set, and the underlying search call with the empty pattern
returns match count 0. -/
theorem empty_pattern_clears (χ : Type) (st : EditorState χ)
    (cs rx ww : Bool) (eng : RegexEngine) (theme : Theme χ) :
    (∃ (st' : EditorState χ) (evs : List (UiEvent χ)),
      on_search_requested st [] cs rx ww eng theme = .ok (st', evs) ∧
      st'.svc.last_pattern = [] ∧
      st'.svc.case_sensitive = cs ∧ st'.svc.use_regex = rx ∧
      st'.svc.whole_word = ww ∧
      st'.svc.matchList = [] ∧
      st'.deco.layers .SEARCH_MATCHES = [] ∧
      st'.deco.layers .CURRENT_MATCH = [] ∧
      evs.countP (fun ev => ev.isSetSelections) = 1) ∧
    (∀ (svc : V1.SearchService) (doc : Doc) (engA : RegexEngine),
      ∃ svc', svc.search doc engA [] cs rx ww = .ok (0, svc')) := by
  constructor
  · refine ⟨_, _, rfl, rfl, rfl, rfl, rfl, rfl, ?_, ?_, ?_⟩
    · simp [DecorationService.clear_layer]
    · simp [DecorationService.clear_layer]
    · cases hP : st.hasPopup <;>
        simp [hP, applyEvent, UiEvent.isSetSelections, List.countP_cons,
          List.countP_nil, List.countP_append]
  · intro svc doc engA
    exact ⟨_, rfl⟩

/-- C8: `needs_research` returns true exactly when one of the four criteria
fields differs from the stored last criteria or the stored match list is
empty; the facade consults it on every non-empty search request, and when
it returns false the handler takes the restore path — repainting from the
existing MatchList with the service state (hence the match list) left
untouched, no rescan. -/
theorem needs_research_spec (χ : Type) :
    (∀ (svc : V1.SearchService) (pattern : Doc) (cs rx ww : Bool),
      svc.needs_research pattern cs rx ww = true ↔
        (pattern ≠ svc.last_pattern ∨ cs ≠ svc.case_sensitive ∨
         rx ≠ svc.use_regex ∨ ww ≠ svc.whole_word ∨
         svc.matchList = [])) ∧
    (∀ (st : EditorState χ) (pattern : Doc) (cs rx ww : Bool)
        (eng : RegexEngine) (theme : Theme χ),
      pattern ≠ [] →
      st.svc.needs_research pattern cs rx ww = false →
      on_search_requested st pattern cs rx ww eng theme =
        .ok (restore_search_highlights st theme) ∧
      (restore_search_highlights st theme).1.svc = st.svc) := by
  constructor
  · intro svc pattern cs rx ww
    unfold V1.SearchService.needs_research
    simp [List.length_eq_zero]
    tauto
  · intro st pattern cs rx ww eng theme hne hfalse
    constructor
    · unfold on_search_requested
      rw [if_neg (by simp [List.isEmpty_iff, hne]), if_pos (by simp [hfalse])]
    · unfold restore_search_highlights
      by_cases he : (st.svc.get_matches).isEmpty
      · rw [if_pos he]
      · rw [if_neg he]
        cases st.svc.get_current_match <;> simp

theorem needs_research_spec_witness :
    on_search_requested
      ({ doc := ['a'],
         svc := { matchList := [⟨0, 1, ['a']⟩], current_index := 0,
                  last_pattern := ['a'], case_sensitive := false,
                  use_regex := false, whole_word := false },
         deco := DecorationService.empty (Nat × Nat) Nat,
         hasPopup := false } : EditorState Nat)
      ['a'] false false false engNone ⟨7, 8⟩ =
      .ok (restore_search_highlights
        ({ doc := ['a'],
           svc := { matchList := [⟨0, 1, ['a']⟩], current_index := 0,
                    last_pattern := ['a'], case_sensitive := false,
                    use_regex := false, whole_word := false },
           deco := DecorationService.empty (Nat × Nat) Nat,
           hasPopup := false } : EditorState Nat) ⟨7, 8⟩) :=
  ((needs_research_spec Nat).2
    { doc := ['a'],
      svc := { matchList := [⟨0, 1, ['a']⟩], current_index := 0,
               last_pattern := ['a'], case_sensitive := false,
               use_regex := false, whole_word := false },
      deco := DecorationService.empty (Nat × Nat) Nat,
      hasPopup := false }
    ['a'] false false false engNone ⟨7, 8⟩ (by decide) (by decide)).1

/-- C1 (modelled from the spec, since `replace_all` has no implementation
under the sources): replace_all performs one replacement per stored match,
visiting the spans in reverse document order (starts descending), returns
the number of replacements, and clears the match list and resets the
current index to -1; concretely, after searching document "aXaXa" for
pattern "a", replacing all with "bb" yields "bbXbbXbb", count 3, visiting
offsets 4, 2, 0. -/
theorem replace_all_spec :
    (∀ (svc : V1.SearchService) (doc repl : Doc),
      (svc.replace_all doc repl).2.1 = svc.matchList.length ∧
      (svc.replace_all doc repl).2.2.1.matchList = [] ∧
      (svc.replace_all doc repl).2.2.1.current_index = -1 ∧
      List.Sorted (fun a b : Nat × Nat => b.1 ≤ a.1)
        (svc.replace_all doc repl).2.2.2) ∧
    (V1.SearchService.init.search ['a', 'X', 'a', 'X', 'a'] engNone ['a']
        true false false =
      .ok (3, { matchList := [⟨0, 1, ['a']⟩, ⟨2, 3, ['a']⟩, ⟨4, 5, ['a']⟩],
                current_index := 0, last_pattern := ['a'],
                case_sensitive := true, use_regex := false,
                whole_word := false }) ∧
      V1.SearchService.replace_all
        { matchList := [⟨0, 1, ['a']⟩, ⟨2, 3, ['a']⟩, ⟨4, 5, ['a']⟩],
          current_index := 0, last_pattern := ['a'],
          case_sensitive := true, use_regex := false, whole_word := false }
        ['a', 'X', 'a', 'X', 'a'] ['b', 'b'] =
      (['b', 'b', 'X', 'b', 'b', 'X', 'b', 'b'], 3,
        { matchList := [], current_index := -1, last_pattern := ['a'],
          case_sensitive := true, use_regex := false, whole_word := false },
        [(4, 5), (2, 3), (0, 1)])) := by
  constructor
  · intro svc doc repl
    refine ⟨rfl, rfl, rfl, ?_⟩
    exact (List.sorted_insertionSort startDescending svc.matchList).map
      SearchMatch.cursorSpan (fun a b h => h)
  · exact ⟨by rfl, by rfl⟩

/-- The plain-find scan helper is insensitive to surplus fuel. -/
theorem docFindPlainAux_congr (cs ww : Bool) (doc pat : Doc) :
    ∀ f1 f2 p, doc.length + 1 - p ≤ f1 → doc.length + 1 - p ≤ f2 →
      docFindPlainAux cs ww doc pat f1 p =
        docFindPlainAux cs ww doc pat f2 p := by
  intro f1
  induction f1 with
  | zero =>
    intro f2 p h1 h2
    have hp : doc.length < p := by omega
    cases f2 with
    | zero => rfl
    | succ f2 =>
      simp only [docFindPlainAux]
      by_cases hpat : pat.isEmpty
      · rw [if_pos hpat]
      · rw [if_neg hpat, if_neg (by omega : ¬p + pat.length ≤ doc.length)]
  | succ f1 ih =>
    intro f2 p h1 h2
    cases f2 with
    | zero =>
      have hp : doc.length < p := by omega
      simp only [docFindPlainAux]
      by_cases hpat : pat.isEmpty
      · rw [if_pos hpat]
      · rw [if_neg hpat, if_neg (by omega : ¬p + pat.length ≤ doc.length)]
    | succ f2 =>
      simp only [docFindPlainAux]
      by_cases hpat : pat.isEmpty
      · rw [if_pos hpat, if_pos hpat]
      · rw [if_neg hpat, if_neg hpat]
        by_cases hle : p + pat.length ≤ doc.length
        · rw [if_pos hle, if_pos hle]
          by_cases hm : (matchAt cs doc pat p &&
              boundaryOk ww doc p (p + pat.length)) = true
          · rw [if_pos hm, if_pos hm]
          · rw [if_neg hm, if_neg hm]
            exact ih f2 (p + 1) (by omega) (by omega)
        · rw [if_neg hle, if_neg hle]

/-- One-step unfolding of the plain find primitive. -/
theorem docFindPlain_eq (cs ww : Bool) (doc pat : Doc) (p : Nat) :
    docFindPlain cs ww doc pat p =
      if pat.isEmpty then none
      else if p + pat.length ≤ doc.length then
        if matchAt cs doc pat p && boundaryOk ww doc p (p + pat.length) then
          some (p, p + pat.length)
        else docFindPlain cs ww doc pat (p + 1)
      else none := by
  unfold docFindPlain
  cases hf : doc.length + 1 - p with
  | zero =>
    simp only [docFindPlainAux]
    by_cases hpat : pat.isEmpty
    · rw [if_pos hpat]
    · rw [if_neg hpat, if_neg (by omega : ¬p + pat.length ≤ doc.length)]
  | succ f =>
    simp only [docFindPlainAux]
    by_cases hpat : pat.isEmpty
    · rw [if_pos hpat, if_pos hpat]
    · rw [if_neg hpat, if_neg hpat]
      by_cases hle : p + pat.length ≤ doc.length
      · rw [if_pos hle, if_pos hle]
        by_cases hm : (matchAt cs doc pat p &&
            boundaryOk ww doc p (p + pat.length)) = true
        · rw [if_pos hm, if_pos hm]
        · rw [if_neg hm, if_neg hm]
          exact docFindPlainAux_congr cs ww doc pat f
            (doc.length + 1 - (p + 1)) (p + 1) (by omega) (by omega)
      · rw [if_neg hle, if_neg hle]

/-- A successful plain find answers at or after the queried offset, with a
span of exactly the pattern length ending inside the document. -/
theorem docFindPlainAux_some (cs ww : Bool) (doc pat : Doc) :
    ∀ fuel p s e, docFindPlainAux cs ww doc pat fuel p = some (s, e) →
      p ≤ s ∧ e = s + pat.length ∧ e ≤ doc.length := by
  intro fuel
  induction fuel with
  | zero =>
    intro p s e h
    simp [docFindPlainAux] at h
  | succ f ih =>
    intro p s e h
    simp only [docFindPlainAux] at h
    by_cases hpat : pat.isEmpty
    · rw [if_pos hpat] at h
      cases h
    · rw [if_neg hpat] at h
      by_cases hle : p + pat.length ≤ doc.length
      · rw [if_pos hle] at h
        by_cases hm : (matchAt cs doc pat p &&
            boundaryOk ww doc p (p + pat.length)) = true
        · rw [if_pos hm] at h
          simp only [Option.some.injEq, Prod.mk.injEq] at h
          omega
        · rw [if_neg hm] at h
          have hr := ih (p + 1) s e h
          exact ⟨by omega, hr.2⟩
      · rw [if_neg hle] at h
        cases h

theorem docFindPlain_some (cs ww : Bool) (doc pat : Doc) (p s e : Nat)
    (h : docFindPlain cs ww doc pat p = some (s, e)) :
    p ≤ s ∧ e = s + pat.length ∧ e ≤ doc.length :=
  docFindPlainAux_some cs ww doc pat _ p s e h

/-- The greedy-span list is insensitive to surplus fuel. -/
theorem greedySpansAux_congr (cs : Bool) (doc pat : Doc) :
    ∀ f1 f2 p, doc.length + 1 - p ≤ f1 → doc.length + 1 - p ≤ f2 →
      greedySpansAux cs doc pat f1 p = greedySpansAux cs doc pat f2 p := by
  intro f1
  induction f1 with
  | zero =>
    intro f2 p h1 h2
    have hp : doc.length < p := by omega
    cases f2 with
    | zero => rfl
    | succ f2 =>
      simp only [greedySpansAux]
      rw [if_neg (by omega : ¬(p + pat.length ≤ doc.length ∧ pat ≠ []))]
  | succ f1 ih =>
    intro f2 p h1 h2
    cases f2 with
    | zero =>
      have hp : doc.length < p := by omega
      simp only [greedySpansAux]
      rw [if_neg (by omega : ¬(p + pat.length ≤ doc.length ∧ pat ≠ []))]
    | succ f2 =>
      simp only [greedySpansAux]
      by_cases hg : p + pat.length ≤ doc.length ∧ pat ≠ []
      · rw [if_pos hg, if_pos hg]
        have hl : 0 < pat.length := List.length_pos.mpr hg.2
        by_cases hm : matchAt cs doc pat p = true
        · rw [if_pos hm, if_pos hm]
          rw [ih f2 (p + pat.length) (by omega) (by omega)]
        · rw [if_neg hm, if_neg hm]
          exact ih f2 (p + 1) (by omega) (by omega)
      · rw [if_neg hg, if_neg hg]

/-- One-step unfolding of the greedy-span list. -/
theorem greedySpans_unfold (cs : Bool) (doc pat : Doc) (p : Nat) :
    greedySpans cs doc pat p =
      if p + pat.length ≤ doc.length ∧ pat ≠ [] then
        if matchAt cs doc pat p then
          (p, p + pat.length) :: greedySpans cs doc pat (p + pat.length)
        else greedySpans cs doc pat (p + 1)
      else [] := by
  unfold greedySpans
  cases hf : doc.length + 1 - p with
  | zero =>
    simp only [greedySpansAux]
    rw [if_neg (by omega : ¬(p + pat.length ≤ doc.length ∧ pat ≠ []))]
  | succ f =>
    simp only [greedySpansAux]
    by_cases hg : p + pat.length ≤ doc.length ∧ pat ≠ []
    · rw [if_pos hg, if_pos hg]
      have hl : 0 < pat.length := List.length_pos.mpr hg.2
      by_cases hm : matchAt cs doc pat p = true
      · rw [if_pos hm, if_pos hm]
        rw [greedySpansAux_congr cs doc pat f
          (doc.length + 1 - (p + pat.length)) (p + pat.length)
          (by omega) (by omega)]
      · rw [if_neg hm, if_neg hm]
        exact greedySpansAux_congr cs doc pat f
          (doc.length + 1 - (p + 1)) (p + 1) (by omega) (by omega)
    · rw [if_neg hg, if_neg hg]

/-- Bridge: the greedy-span list is exactly what repeated calls of the
(whole-word-free) plain find primitive produce. -/
theorem greedySpans_eq_find (cs : Bool) (doc pat : Doc) (hp : pat ≠ []) :
    ∀ p, greedySpans cs doc pat p =
      match docFindPlain cs false doc pat p with
      | none => []
      | some (s, e) => (s, e) :: greedySpans cs doc pat e := by
  have hpe : ¬pat.isEmpty = true := by simp [List.isEmpty_iff, hp]
  have key : ∀ n p, doc.length + 1 - p ≤ n →
      greedySpans cs doc pat p =
        match docFindPlain cs false doc pat p with
        | none => []
        | some (s, e) => (s, e) :: greedySpans cs doc pat e := by
    intro n
    induction n with
    | zero =>
      intro p hle
      have hgt : doc.length < p := by omega
      rw [greedySpans_unfold,
        if_neg (by omega : ¬(p + pat.length ≤ doc.length ∧ pat ≠ [])),
        docFindPlain_eq, if_neg hpe,
        if_neg (by omega : ¬p + pat.length ≤ doc.length)]
    | succ n ih =>
      intro p hle
      rw [docFindPlain_eq, if_neg hpe]
      by_cases hle2 : p + pat.length ≤ doc.length
      · rw [if_pos hle2]
        by_cases hm : matchAt cs doc pat p = true
        · have hcond : (matchAt cs doc pat p &&
              boundaryOk false doc p (p + pat.length)) = true := by
            simp [hm, boundaryOk]
          rw [if_pos hcond, greedySpans_unfold, if_pos ⟨hle2, hp⟩, if_pos hm]
        · have hcond : ¬(matchAt cs doc pat p &&
              boundaryOk false doc p (p + pat.length)) = true := by
            simp [hm]
          rw [if_neg hcond, greedySpans_unfold, if_pos ⟨hle2, hp⟩, if_neg hm]
          exact ih (p + 1) (by omega)
      · rw [if_neg hle2, greedySpans_unfold,
          if_neg (by omega : ¬(p + pat.length ≤ doc.length ∧ pat ≠ []))]
  intro p
  exact key (doc.length + 1 - p) p (le_refl _)

/-- The V2 plain loop computes exactly the first `fuel` greedy spans (in
particular the loop-safety breaks never fire for a non-empty pattern). -/
theorem plainLoop_eq_greedy (cs : Bool) (doc pat : Doc) (hp : pat ≠ []) :
    ∀ (fuel p : Nat) (lastPos : Int) (acc : List SearchMatch),
      lastPos ≤ (p : Int) →
      V2.plainLoop cs false doc pat fuel p lastPos acc =
        acc ++ ((greedySpans cs doc pat p).take fuel).map
          (fun se => SearchMatch.fromSpan doc se.1 se.2) := by
  intro fuel
  induction fuel with
  | zero =>
    intro p lastPos acc hlast
    simp [V2.plainLoop]
  | succ f ih =>
    intro p lastPos acc hlast
    rw [greedySpans_eq_find cs doc pat hp p]
    cases hfind : docFindPlain cs false doc pat p with
    | none =>
      simp only [V2.plainLoop, hfind]
      simp
    | some se =>
      obtain ⟨s, e⟩ := se
      obtain ⟨hps, hse, hel⟩ := docFindPlain_some cs false doc pat p s e hfind
      have hL : 0 < pat.length := List.length_pos.mpr hp
      simp only [V2.plainLoop, hfind]
      rw [if_neg (show ¬(e : Int) = lastPos by omega),
        if_neg (show ¬characterCount doc ≤ e by
          unfold characterCount; omega),
        ih e (e : Int) (acc ++ [SearchMatch.fromSpan doc s e]) (le_refl _)]
      simp [List.take_succ_cons]

/-- Every greedy span starts at or after the scan origin and has the
pattern's length. -/
theorem greedySpans_mem (cs : Bool) (doc pat : Doc) (hp : pat ≠ []) :
    ∀ p x, x ∈ greedySpans cs doc pat p →
      p ≤ x.1 ∧ x.2 = x.1 + pat.length := by
  have hL : 0 < pat.length := List.length_pos.mpr hp
  have key : ∀ n p x, doc.length + 1 - p ≤ n →
      x ∈ greedySpans cs doc pat p → p ≤ x.1 ∧ x.2 = x.1 + pat.length := by
    intro n
    induction n with
    | zero =>
      intro p x hle hx
      rw [greedySpans_unfold,
        if_neg (by omega : ¬(p + pat.length ≤ doc.length ∧ pat ≠ []))] at hx
      cases hx
    | succ n ih =>
      intro p x hle hx
      rw [greedySpans_unfold] at hx
      by_cases hg : p + pat.length ≤ doc.length ∧ pat ≠ []
      · rw [if_pos hg] at hx
        by_cases hm : matchAt cs doc pat p = true
        · rw [if_pos hm] at hx
          rcases List.mem_cons.mp hx with hx | hx
          · subst hx
            exact ⟨le_refl _, rfl⟩
          · have := ih (p + pat.length) x (by omega) hx
            exact ⟨by omega, this.2⟩
        · rw [if_neg hm] at hx
          have := ih (p + 1) x (by omega) hx
          exact ⟨by omega, this.2⟩
      · rw [if_neg hg] at hx
        cases hx
  intro p x hx
  exact key (doc.length + 1 - p) p x (le_refl _) hx

/-- The greedy spans have strictly increasing starts. -/
theorem greedySpans_chain (cs : Bool) (doc pat : Doc) (hp : pat ≠ []) :
    ∀ p, List.Chain' (fun a b : Nat × Nat => a.1 < b.1)
      (greedySpans cs doc pat p) := by
  have hL : 0 < pat.length := List.length_pos.mpr hp
  have key : ∀ n p, doc.length + 1 - p ≤ n →
      List.Chain' (fun a b : Nat × Nat => a.1 < b.1)
        (greedySpans cs doc pat p) := by
    intro n
    induction n with
    | zero =>
      intro p hle
      rw [greedySpans_unfold,
        if_neg (by omega : ¬(p + pat.length ≤ doc.length ∧ pat ≠ []))]
      exact List.chain'_nil
    | succ n ih =>
      intro p hle
      rw [greedySpans_unfold]
      by_cases hg : p + pat.length ≤ doc.length ∧ pat ≠ []
      · rw [if_pos hg]
        by_cases hm : matchAt cs doc pat p = true
        · rw [if_pos hm]
          rw [List.chain'_cons']
          refine ⟨fun y hy => ?_, ih (p + pat.length) (by omega)⟩
          have hmem := List.mem_of_mem_head? hy
          have := greedySpans_mem cs doc pat hp (p + pat.length) y hmem
          omega
        · rw [if_neg hm]
          exact ih (p + 1) (by omega)
      · rw [if_neg hg]
        exact List.chain'_nil
  intro p
  exact key (doc.length + 1 - p) p (le_refl _)

/-- A search call with useRegex false and a non-empty pattern runs the
plain finder and returns its match count together with the updated model. -/
theorem search_plain_eq (doc : Doc) (eng : RegexEngine) (model : SearchModel)
    (pat : Doc) (cs ww : Bool) (hp : pat ≠ []) :
    V2.search doc eng model pat cs false ww =
      some ((V2.find_plain_matches cs ww doc pat).length,
        (({ model with
            pattern := pat
            case_sensitive := cs
            use_regex := false
            whole_word := ww }).clear_matches).set_matches
          (V2.find_plain_matches cs ww doc pat)) := by
  unfold V2.search
  rw [if_neg (by simp [List.isEmpty_iff, hp])]
  rfl

/-- C5 (amended): for every document and every non-empty literal substring
present k times non-overlapping with k at most MAX_ITERATIONS, the plain
search (useRegex false) finds exactly k matches, their start offsets are
strictly ascending, and the search call returns match count k. -/
theorem plain_search_exhaustive (cs : Bool) (doc pat : Doc) (hp : pat ≠ [])
    (hcap : (greedySpans cs doc pat 0).length ≤ MAX_ITERATIONS) :
    (V2.find_plain_matches cs false doc pat).length =
      (greedySpans cs doc pat 0).length ∧
    List.Chain' (fun a b => a < b)
      ((V2.find_plain_matches cs false doc pat).map SearchMatch.start) ∧
    (∀ (eng : RegexEngine) (model : SearchModel),
      ∃ m', V2.search doc eng model pat cs false false =
        some ((greedySpans cs doc pat 0).length, m')) := by
  have hloop := plainLoop_eq_greedy cs doc pat hp MAX_ITERATIONS 0 (-1) []
    (by norm_num)
  have htake : (greedySpans cs doc pat 0).take MAX_ITERATIONS =
      greedySpans cs doc pat 0 := List.take_of_length_le hcap
  have hfpm : V2.find_plain_matches cs false doc pat =
      (greedySpans cs doc pat 0).map
        (fun se => SearchMatch.fromSpan doc se.1 se.2) := by
    rw [V2.find_plain_matches, hloop, htake]
    simp
  refine ⟨?_, ?_, ?_⟩
  · rw [hfpm, List.length_map]
  · rw [hfpm, List.map_map, List.chain'_map]
    exact greedySpans_chain cs doc pat hp 0
  · intro eng model
    have h1 := search_plain_eq doc eng model pat cs false hp
    rw [hfpm, List.length_map] at h1
    exact ⟨_, h1⟩

theorem plain_search_exhaustive_witness :
    (V2.find_plain_matches true false ['a', 'X', 'a'] ['a']).length =
      (greedySpans true ['a', 'X', 'a'] ['a'] 0).length ∧
    List.Chain' (fun a b => a < b)
      ((V2.find_plain_matches true false ['a', 'X', 'a'] ['a']).map
        SearchMatch.start) :=
  ⟨(plain_search_exhaustive true ['a', 'X', 'a'] ['a'] (by decide)
      (by decide)).1,
   (plain_search_exhaustive true ['a', 'X', 'a'] ['a'] (by decide)
      (by decide)).2.1⟩

/-- In an all-'a' document of length n, the greedy non-overlapping
occurrence count of "a" from offset p is n - p. -/
theorem greedySpans_replicate_length (n : Nat) :
    ∀ k p, n - p ≤ k →
      (greedySpans true (List.replicate n 'a') ['a'] p).length = n - p := by
  intro k
  induction k with
  | zero =>
    intro p hle
    rw [greedySpans_unfold, if_neg (by
      rintro ⟨h1, -⟩
      simp only [List.length_replicate, List.length_cons,
        List.length_nil] at h1
      omega)]
    simp only [List.length_nil]
    omega
  | succ k ih =>
    intro p hle
    by_cases hpn : p < n
    · have hm : matchAt true (List.replicate n 'a') ['a'] p = true := by
        simp only [matchAt, List.drop_replicate, List.take_replicate,
          List.length_cons, List.length_nil]
        rw [show min (0 + 1) (n - p) = 1 by omega]
        decide
      rw [greedySpans_unfold, if_pos (by
        constructor
        · simp only [List.length_replicate, List.length_cons,
            List.length_nil]
          omega
        · simp), if_pos hm]
      simp only [List.length_cons, List.length_nil]
      rw [ih (p + (1 + 0)) (by omega)]
      omega
    · rw [greedySpans_unfold, if_neg (by
        rintro ⟨h1, -⟩
        simp only [List.length_replicate, List.length_cons,
          List.length_nil] at h1
        omega)]
      simp only [List.length_nil]
      omega

/-- C5 counterexample: in the 10001-character document of all 'a', the
pattern "a" is present 10001 times non-overlapping, but the plain search
truncates at the iteration cap and reports only 10000 matches. -/
theorem plain_search_cap_counterexample :
    (greedySpans true (List.replicate 10001 'a') ['a'] 0).length = 10001 ∧
    (V2.find_plain_matches true false
      (List.replicate 10001 'a') ['a']).length = 10000 := by
  have hg := greedySpans_replicate_length 10001 10001 0 (by omega)
  constructor
  · simpa only [Nat.sub_zero] using hg
  · have hloop := plainLoop_eq_greedy true (List.replicate 10001 'a') ['a']
      (by decide) MAX_ITERATIONS 0 (-1) [] (by norm_num)
    rw [V2.find_plain_matches, hloop]
    simp only [List.nil_append, List.length_map, List.length_take]
    simp only [Nat.sub_zero] at hg
    rw [hg]
    decide

/-- C2 (amended): no regex-engine exception propagates out of the match
scan — the finder always returns a plain match list; if the QRegExp
construction raises, or the matcher raises on the first find call, the
result is the empty MatchList; in general an exception mid-scan is caught
and exactly the matches accumulated before it are returned. -/
theorem regex_exception_swallowed :
    (∀ (eng : RegexEngine) (doc : Doc), eng.compile = .error () →
      V2.find_regex_matches eng doc = some []) ∧
    (∀ (eng : RegexEngine) (doc : Doc), eng.compile = .ok () →
      eng.findFrom 0 = .error () →
      V2.find_regex_matches eng doc = some []) ∧
    (∀ (eng : RegexEngine) (doc : Doc) (gas fuel pos : Nat)
        (lastPos : Int) (acc : List SearchMatch),
      eng.findFrom pos = .error () →
      V2.regexLoop eng doc (gas + 1) (fuel + 1) pos lastPos acc =
        some acc) := by
  have hswallow : ∀ (eng : RegexEngine) (doc : Doc) (gas fuel pos : Nat)
      (lastPos : Int) (acc : List SearchMatch),
      eng.findFrom pos = .error () →
      V2.regexLoop eng doc (gas + 1) (fuel + 1) pos lastPos acc =
        some acc := by
    intro eng doc gas fuel pos lastPos acc h
    simp [V2.regexLoop, h]
  refine ⟨?_, ?_, hswallow⟩
  · intro eng doc h
    unfold V2.find_regex_matches
    rw [h]
  · intro eng doc hc h
    unfold V2.find_regex_matches
    rw [hc]
    rw [show V2.REGEX_GAS = (V2.REGEX_GAS - 1) + 1 from by
        norm_num [V2.REGEX_GAS, MAX_ITERATIONS],
      show MAX_ITERATIONS = (MAX_ITERATIONS - 1) + 1 from by
        norm_num [MAX_ITERATIONS]]
    exact hswallow eng doc (V2.REGEX_GAS - 1) (MAX_ITERATIONS - 1) 0 (-1) [] h

theorem regex_exception_swallowed_witness :
    V2.find_regex_matches engBadCompile ['a'] = some [] ∧
    V2.find_regex_matches engRaisesFind ['a'] = some [] ∧
    V2.regexLoop engRaisesFind ['a'] 5 5 0 (-1) [] = some [] :=
  ⟨regex_exception_swallowed.1 engBadCompile ['a'] rfl,
   regex_exception_swallowed.2.1 engRaisesFind ['a'] rfl rfl,
   regex_exception_swallowed.2.2 engRaisesFind ['a'] 4 4 0 (-1) [] rfl⟩

/-- C2 counterexample: with a matcher that finds a match on the first call
and raises on the second, the scan returns the one accumulated match —
not an empty MatchList — although the matcher raised an exception during
the search call. -/
theorem regex_exception_counterexample :
    V2.find_regex_matches engRaisesAfterFirst ['a'] =
      some [⟨0, 1, ['a']⟩] ∧
    engRaisesAfterFirst.findFrom 1 = .error () :=
  ⟨rfl, rfl⟩

/-- Under forward progress of the find primitive, the regex loop finishes
within the fixed step budget and appends at most `fuel` matches. -/
theorem regexGas_sufficient (eng : RegexEngine) (doc : Doc)
    (hfwd : ∀ p s e, eng.findFrom p = .ok (some (s, e)) → p ≤ e) :
    ∀ (fuel gas pos : Nat) (lastPos : Int) (acc : List SearchMatch),
      lastPos ≤ (pos : Int) → 2 * fuel + 3 ≤ gas →
      ∃ l, V2.regexLoop eng doc gas fuel pos lastPos acc = some l ∧
        l.length ≤ acc.length + fuel := by
  intro fuel
  induction fuel with
  | zero =>
    intro gas pos lastPos acc hlast hgas
    obtain ⟨g, rfl⟩ : ∃ g, gas = g + 1 := ⟨gas - 1, by omega⟩
    exact ⟨acc, by simp [V2.regexLoop], by omega⟩
  | succ f ih =>
    intro gas pos lastPos acc hlast hgas
    obtain ⟨g, rfl⟩ : ∃ g, gas = g + 1 := ⟨gas - 1, by omega⟩
    cases hfind : eng.findFrom pos with
    | error u =>
      cases u
      exact ⟨acc, by simp [V2.regexLoop, hfind], by omega⟩
    | ok o =>
      cases o with
      | none => exact ⟨acc, by simp [V2.regexLoop, hfind], by omega⟩
      | some se =>
        obtain ⟨s, e⟩ := se
        have hpe : pos ≤ e := hfwd pos s e hfind
        by_cases hzw : (e : Int) = lastPos
        · by_cases hmv : e < doc.length
          · obtain ⟨g', rfl⟩ : ∃ g', g = g' + 1 := ⟨g - 1, by omega⟩
            have hstep1 : V2.regexLoop eng doc (g' + 1 + 1) (f + 1) pos
                lastPos acc =
                V2.regexLoop eng doc (g' + 1) (f + 1) (e + 1) lastPos acc := by
              simp [V2.regexLoop, hfind, hzw, hmv]
            cases hfind2 : eng.findFrom (e + 1) with
            | error u =>
              cases u
              refine ⟨acc, ?_, by omega⟩
              rw [hstep1]
              simp [V2.regexLoop, hfind2]
            | ok o2 =>
              cases o2 with
              | none =>
                refine ⟨acc, ?_, by omega⟩
                rw [hstep1]
                simp [V2.regexLoop, hfind2]
              | some se2 =>
                obtain ⟨s2, e2⟩ := se2
                have hpe2 : e + 1 ≤ e2 := hfwd _ _ _ hfind2
                have hzw2 : ¬(e2 : Int) = lastPos := by omega
                by_cases hbound : characterCount doc ≤ e2
                · refine ⟨acc, ?_, by omega⟩
                  rw [hstep1]
                  simp [V2.regexLoop, hfind2, hzw2, hbound]
                · obtain ⟨l, hl, hlen⟩ := ih g' e2 (e2 : Int)
                    (acc ++ [SearchMatch.fromSpan doc s2 e2]) (le_refl _)
                    (by omega)
                  have hlen' : l.length ≤ acc.length + (f + 1) := by
                    simp only [List.length_append, List.length_cons,
                      List.length_nil] at hlen
                    omega
                  refine ⟨l, ?_, hlen'⟩
                  rw [hstep1,
                    show V2.regexLoop eng doc (g' + 1) (f + 1) (e + 1)
                        lastPos acc =
                      V2.regexLoop eng doc g' f e2 (e2 : Int)
                        (acc ++ [SearchMatch.fromSpan doc s2 e2]) from by
                      simp [V2.regexLoop, hfind2, hzw2, hbound]]
                  exact hl
          · refine ⟨acc, ?_, by omega⟩
            simp [V2.regexLoop, hfind, hzw, hmv]
        · by_cases hbound : characterCount doc ≤ e
          · refine ⟨acc, ?_, by omega⟩
            simp [V2.regexLoop, hfind, hzw, hbound]
          · obtain ⟨l, hl, hlen⟩ := ih g e (e : Int)
              (acc ++ [SearchMatch.fromSpan doc s e]) (le_refl _) (by omega)
            have hlen' : l.length ≤ acc.length + (f + 1) := by
              simp only [List.length_append, List.length_cons,
                List.length_nil] at hlen
              omega
            refine ⟨l, ?_, hlen'⟩
            rw [show V2.regexLoop eng doc (g + 1) (f + 1) pos lastPos acc =
                V2.regexLoop eng doc g f e (e : Int)
                  (acc ++ [SearchMatch.fromSpan doc s e]) from by
              simp [V2.regexLoop, hfind, hzw, hbound]]
            exact hl

/-- C3: for every engine whose find primitive answers at or after the
queried offset — as QTextDocument.find does, also on pathological patterns
such as ".*" — the regex scan terminates within the model's fixed step
budget and returns a finite match list of at most MAX_ITERATIONS entries
(the cap truncates instead of looping). -/
theorem regex_scan_bounded (eng : RegexEngine) (doc : Doc)
    (hfwd : ∀ p s e, eng.findFrom p = .ok (some (s, e)) → p ≤ e) :
    ∃ l, V2.find_regex_matches eng doc = some l ∧
      l.length ≤ MAX_ITERATIONS := by
  unfold V2.find_regex_matches
  cases hc : eng.compile with
  | error u => exact ⟨[], rfl, by norm_num⟩
  | ok u =>
    obtain ⟨l, hl, hlen⟩ := regexGas_sufficient eng doc hfwd MAX_ITERATIONS
      V2.REGEX_GAS 0 (-1) [] (by norm_num)
      (by norm_num [V2.REGEX_GAS])
    exact ⟨l, hl, by simpa using hlen⟩

theorem regex_scan_bounded_witness :
    ∃ l, V2.find_regex_matches engStar ['a', 'b', 'c'] = some l ∧
      l.length ≤ MAX_ITERATIONS :=
  regex_scan_bounded engStar ['a', 'b', 'c'] (by
    intro p s e h
    by_cases hp : p ≤ 3
    · simp [engStar, hp] at h
      omega
    · simp [engStar, hp] at h)

end Nexus
